import Mathlib

/-!
Verification of `src/generators/services-files.ts` from `openapi-ts-generator`.

The generator walks an OpenAPI description's path table, validates each
declared HTTP verb, derives service/method names from `operationId`, and
builds one class per service with one method per operation inside a
ts-morph `Project`.  We embed the generator shallowly: ts-morph artifacts
(source files, classes, methods, writers) become inductive data, and the
mutable `Project` becomes explicit state passing.  Helpers imported from
the repository modules `fp`, `openapi`, `utils` and `writers` (not present
under `src/`) are modelled from the spec; each such definition says so in
its doc comment.
-/

namespace SvcGen

/-- A schema node of the OpenAPI description.  The generator never inspects
schema structure itself (rendering is the external Type Renderer), so we
keep it opaque behind a tag. -/
structure Schema where
  tag : String
deriving DecidableEq, Repr

/-- The type expression a `props` field is given: either the Type Renderer
applied to a schema (`openAPISpecTreeSpecWriter`), or `sanitizeType` applied
to a parameter's primitive schema type.  Both renderers live outside `src/`,
so they stay symbolic constructors. -/
inductive FieldType where
  | rendered (schema : Schema)
  | sanitized (t : String)
deriving DecidableEq, Repr

/-- One property of an inline object type: `{name, type, hasQuestionToken}`
as passed to `Writers.objectType`. -/
structure FieldSig where
  name : String
  type : FieldType
  hasQuestionToken : Bool
deriving DecidableEq, Repr

/-- A type expression appearing in the generated code: the Type Renderer
applied to a schema (`openAPISpecTreeSpecWriter`), a literal type text
(`literalWriter`), or an inline object type (`Writers.objectType`). -/
inductive TypeExpr where
  | rendered (schema : Schema)
  | lit (s : String)
  | objectType (fields : List FieldSig)
deriving DecidableEq, Repr

/-- One declared parameter of an operation: `{name, in, schema, required}`.
`location` models the `in` field (a Lean keyword); `schemaType` models
`schema.type`, the only part of the schema the generator reads for
parameters. -/
structure Param where
  name : String
  location : String
  schemaType : String
  required : Bool
deriving DecidableEq, Repr

/-- Modelled from the spec: the record `extractContentSchema` (in
`src/utils`, not under `src/`) produces for an operation's request body —
`{contentName, schema, required}` plus the external type names the body
schema references (`imports`). -/
structure BodyParams where
  contentName : String
  schema : Schema
  required : Bool
  imports : Option String
deriving DecidableEq, Repr

/-- Modelled from the spec: the record `extractResponseType` (in
`src/utils`, not under `src/`) produces for an operation's response —
its schema plus the external type name it references (`typeName`), when
there is one. -/
structure ResponseType where
  schema : Schema
  typeName : Option String
deriving DecidableEq, Repr

/-- One operation record of the description: identifier, ordered parameter
list, optional request body and optional response, the two latter already
in the shape the `utils` extractors deliver. -/
structure Operation where
  operationId : Option String
  parameters : List Param
  requestBody : Option BodyParams
  response : Option ResponseType
deriving DecidableEq, Repr

/-- Modelled from the spec: `extractContentSchema('bodyArgs', operationSpec)`
extracts the operation's request-body content schema when the operation
declares one.  The string argument names the generated field and is not
consulted for the extraction itself. -/
def extractContentSchema (_key : String) (op : Operation) : Option BodyParams :=
  op.requestBody

/-- Modelled from the spec: `extractResponseType(operationSpec)` extracts
the operation's response schema record when the operation declares one. -/
def extractResponseType (op : Operation) : Option ResponseType :=
  op.response

/-- Modelled from `fp`: `rejectFalsy` drops the falsy entries of a list.
The call sites in `services-files.ts` feed it entries that are either a
definite value or a falsy guard result, which we encode as `Option`s. -/
def rejectFalsy {α : Type} (l : List (Option α)) : List α :=
  l.filterMap id

/-- Modelled from `fp` and the spec (§4.2): `groupBy(item => item.in, ...)`
groups the parameters by transport location preserving declaration order;
accessing one group is filtering by that location. -/
def groupByLocation (loc : String) (params : List Param) : List Param :=
  params.filter (fun p => p.location == loc)

/-- `const knownOperations = ['post', 'get', 'patch', 'delete', 'put']`. -/
def knownOperations : List String :=
  ["post", "get", "patch", "delete", "put"]

/-- Character-list splitter with JavaScript `String.prototype.split`
semantics for a one-character separator: `""` yields `[""]`, adjacent
separators yield empty segments. -/
def splitOnChar (sep : Char) : List Char → List (List Char)
  | [] => [[]]
  | c :: cs =>
      match splitOnChar sep cs with
      | [] => if c = sep then [[], []] else [[c]]
      | g :: gs => if c = sep then [] :: g :: gs else (c :: g) :: gs

/-- JavaScript `s.split('_')`, the only split the generator performs. -/
def jsSplit (sep : Char) (s : String) : List String :=
  (splitOnChar sep s.data).map String.mk

/-- Replace the first occurrence of `pat` in the character list by `rep`,
leaving the list unchanged when `pat` does not occur. -/
def replaceFirstAux (pat rep : List Char) : List Char → List Char
  | [] => []
  | c :: cs =>
      if pat.isPrefixOf (c :: cs) then rep ++ (c :: cs).drop pat.length
      else c :: replaceFirstAux pat rep cs

/-- JavaScript `s.replace(/Controller/, 'Service')` replaces only the
first occurrence of the (literal, un-anchored) pattern, anywhere in the
string. -/
def replaceFirst (s pat rep : String) : String :=
  String.mk (replaceFirstAux pat.data rep.data s.data)

/-- `dataFromOperationId`: split the identifier on `_`; on anything but
exactly two segments fall back to `['Service', 'unknownName']`; otherwise
rewrite the first occurrence of `Controller` in the first segment to
`Service` and keep the second segment verbatim.  A missing `operationId`
yields the empty segment list (`operationId?.split('_') || []`). -/
def dataFromOperationId (operationId : Option String) : String × String :=
  let name := match operationId with
    | some s => jsSplit '_' s
    | none => []
  match name with
  | [serviceName, methodName] =>
      (replaceFirst serviceName "Controller" "Service", methodName)
  | _ => ("Service", "unknownName")

/-- A named-import entry of a generated module: (source module, name). -/
abbrev ImportEntry := String × String

/-- The writer-level text `props['name']`: how the generated body reads a
field of `props`. -/
def propsAccess (name : String) : String :=
  "props[\x27" ++ name ++ "\x27]"

/-- A single-quoted string literal, as in `'${method.toUpperCase()}'`. -/
def quoted (s : String) : String :=
  "\x27" ++ s ++ "\x27"

/-- JavaScript `method.toUpperCase()` on the ASCII verb names the generator
handles. -/
def jsToUpperCase (s : String) : String :=
  String.mk (s.data.map Char.toUpper)

/-- Modelled from the spec: `printStringTemplate` (in `src/utils`, not under
`src/`) wraps its content in backticks, producing a template-literal
expression. -/
def printStringTemplate (s : String) : String :=
  "\x60" ++ s ++ "\x60"

/-- Modelled from the spec: `pathArgsToTemplate` (in `src/utils`, not under
`src/`) rewrites each path-parameter placeholder `\x7bname\x7d` of the raw
path into the template-literal reference `$\x7bname\x7d`, i.e. it prefixes
every `\x7b` with `$`. -/
def pathArgsToTemplate (s : String) : String :=
  String.intercalate "$\x7b" ((splitOnChar '\x7b' s.data).map String.mk)

/-- The request-descriptor call the generated method returns:
`adapter<parametricType>({url, method, queryParams, bodyArgs})`.
`queryParams = none` and `bodyArgs = none` model the literal `undefined`. -/
structure AdapterCall where
  callName : String
  parametricType : TypeExpr
  url : String
  method : String
  queryParams : Option (List (String × String))
  bodyArgs : Option String
deriving DecidableEq, Repr

/-- One generated statement: a destructuring (`destructWriter`), the blank
separator line (`writer => writer.newLine()`), or the return of the adapter
call. -/
inductive Stmt where
  | destruct (multiline : Bool) (target : String) (properties : List String)
  | blank
  | ret (call : AdapterCall)
deriving DecidableEq, Repr

/-- A generated method: name, parameter list (at most the single `props`
parameter), body statements. -/
structure MethodDecl where
  name : String
  parameters : List (String × TypeExpr)
  statements : List Stmt
deriving DecidableEq, Repr

/-- A generated class: the structure `addClass` receives, plus the methods
appended afterwards. -/
structure ClassDecl where
  name : String
  isExported : Bool
  ctorParams : List (String × String)
  methods : List MethodDecl
deriving DecidableEq, Repr

/-- A generated module: path, named imports, classes. A fresh service file
is seeded with the statement importing the shared Configuration type from
the utils module, recorded here as the entry ("../utils", "Configuration"). -/
structure SourceFileArt where
  filePath : String
  importDecls : List ImportEntry
  classes : List ClassDecl
deriving DecidableEq, Repr

/-- The ts-morph `Project`: the set of source files, in creation order. -/
structure Project where
  files : List SourceFileArt
deriving DecidableEq, Repr

/-- `project.getSourceFile(filePath)`: first file with that path. -/
def Project.getSourceFile (p : Project) (fp : String) : Option SourceFileArt :=
  p.files.find? (fun f => f.filePath == fp)

/-- Apply `g` to the first file with path `fp`, leaving the rest alone —
the functional image of mutating the looked-up ts-morph source file. -/
def updateFirstFile (l : List SourceFileArt) (fp : String)
    (g : SourceFileArt → SourceFileArt) : List SourceFileArt :=
  match l with
  | [] => []
  | f :: fs =>
      if f.filePath == fp then g f :: fs else f :: updateFirstFile fs fp g

/-- Project-level view of `updateFirstFile`. -/
def Project.updateFile (p : Project) (fp : String)
    (g : SourceFileArt → SourceFileArt) : Project :=
  ⟨updateFirstFile p.files fp g⟩

/-- The file `createSourceFile` seeds for a new service module. -/
def newServiceFile (fp : String) : SourceFileArt :=
  { filePath := fp
    importDecls := [("../utils", "Configuration")]
    classes := [] }

/-- `getOrCreateServiceFile`: return the project's file at `filePath` or
create it seeded with the Configuration import. -/
def getOrCreateServiceFile (project : Project) (filePath : String) : Project :=
  match project.getSourceFile filePath with
  | some _ => project
  | none => ⟨project.files ++ [newServiceFile filePath]⟩

/-- `serviceFile.getClass(fileName)`: first class with that name. -/
def SourceFileArt.getClass (f : SourceFileArt) (name : String) : Option ClassDecl :=
  f.classes.find? (fun c => c.name == name)

/-- Apply `g` to the first class named `n`, leaving the rest alone. -/
def updateFirstClass (l : List ClassDecl) (n : String)
    (g : ClassDecl → ClassDecl) : List ClassDecl :=
  match l with
  | [] => []
  | c :: cs =>
      if c.name == n then g c :: cs else c :: updateFirstClass cs n g

/-- The class structure `addClass` receives in `getOrCreateServiceClass`:
exported, named after the service, one private constructor parameter
`configuration : Configuration`. -/
def newServiceClass (fileName : String) : ClassDecl :=
  { name := fileName
    isExported := true
    ctorParams := [("configuration", "Configuration")]
    methods := [] }

/-- `getOrCreateServiceClass`: return the file's class named `fileName` or
add a fresh one. -/
def getOrCreateServiceClass (f : SourceFileArt) (fileName : String) : SourceFileArt :=
  match f.getClass fileName with
  | some _ => f
  | none => { f with classes := f.classes ++ [newServiceClass fileName] }

/-- `nameSpace.addMethod(...)` on the class looked up by name. -/
def SourceFileArt.addMethodToClass (f : SourceFileArt) (className : String)
    (m : MethodDecl) : SourceFileArt :=
  let cs := updateFirstClass f.classes className
    (fun c => { c with methods := c.methods ++ [m] })
  { f with classes := cs }

/-- Modelled from the spec (§4.3): `includeOrCreateNamedImport` (in
`src/utils`, not under `src/`) ensures each given name is imported into
the file from the target module, inserting an entry only for names that
are not already imported there. -/
def includeOrCreateNamedImport (inFile : SourceFileArt) (fromTarget : String)
    (namedImports : List String) : SourceFileArt :=
  let imps := namedImports.foldl
    (fun imps n =>
      if (fromTarget, n) ∈ imps then imps else imps ++ [(fromTarget, n)])
    inFile.importDecls
  { inFile with importDecls := imps }

/-- The fixed inputs of one generation pass that `serviceFromPathSpecification`
receives besides the project: the output root directory and the path
identifying the shared type-definitions module (`modelsFile`). -/
structure GenContext where
  rootDir : String
  modelsPath : String
deriving DecidableEq, Repr

/-- The service name the operation resolves to. -/
def serviceNameOf (op : Operation) : String :=
  (dataFromOperationId op.operationId).1

/-- The method name the operation resolves to. -/
def methodNameOf (op : Operation) : String :=
  (dataFromOperationId op.operationId).2

/-- `path.join(rootDir, 'services', fileName + '.ts')`. -/
def filePathOf (ctx : GenContext) (op : Operation) : String :=
  ctx.rootDir ++ "/services/" ++ serviceNameOf op ++ ".ts"

/-- `returnType ? openAPISpecTreeSpecWriter(returnType.schema) : literalWriter('void')`. -/
def parametricTypeOf (op : Operation) : TypeExpr :=
  match extractResponseType op with
  | some r => TypeExpr.rendered r.schema
  | none => TypeExpr.lit "void"

/-- `rejectFalsy([bodyParams?.imports, returnType?.typeName])`. -/
def potentialImportsOf (op : Operation) : List String :=
  rejectFalsy [(extractContentSchema "bodyArgs" op).bind BodyParams.imports,
    (extractResponseType op).bind ResponseType.typeName]

/-- The `properties` list of the `props` object type (lines 137-148 of
`services-files.ts`): the body content field when a body schema exists,
followed by one field per declared parameter, in declaration order. -/
def propsFieldsOf (op : Operation) : List FieldSig :=
  rejectFalsy
    ((extractContentSchema "bodyArgs" op).map (fun b =>
        { name := b.contentName
          type := FieldType.rendered b.schema
          hasQuestionToken := !b.required }) ::
      op.parameters.map (fun p =>
        some { name := p.name
               type := FieldType.sanitized p.schemaType
               hasQuestionToken := !p.required }))

/-- The method structure `addMethod` receives for one operation, built
exactly as in `serviceFromPathSpecification` (lines 130-186 of
`services-files.ts`): the optional `props` parameter guarded by
`hasParameters`, then the statement list guarded by `rejectFalsy`. -/
def methodOf (rawPath : String) (method : String) (op : Operation) : MethodDecl :=
  let bodyParams := extractContentSchema "bodyArgs" op
  let hasParameters := bodyParams.isSome || !op.parameters.isEmpty
  let pathParams := groupByLocation "path" op.parameters
  let queryParams := groupByLocation "query" op.parameters
  { name := methodNameOf op
    parameters := rejectFalsy [
      if hasParameters then
        some ("props", TypeExpr.objectType (propsFieldsOf op))
      else none]
    statements := rejectFalsy [
      some (Stmt.destruct false "this.configuration" ["baseUrl", "adapter"]),
      if pathParams.isEmpty then none
      else some (Stmt.destruct true "props" (pathParams.map Param.name)),
      some Stmt.blank,
      some (Stmt.ret
        { callName := "adapter"
          parametricType := parametricTypeOf op
          url := printStringTemplate ("$\x7bbaseUrl\x7d" ++ pathArgsToTemplate rawPath)
          method := quoted (jsToUpperCase method)
          queryParams :=
            if queryParams.isEmpty then none
            else some (queryParams.map (fun p => (p.name, propsAccess p.name)))
          bodyArgs := bodyParams.map (fun b => propsAccess b.contentName) })] }

/-- `serviceFromPathSpecification`: resolve names, get-or-create the service
file and class, register referenced external type names when there are any,
and append the method. -/
def serviceFromPathSpecification (ctx : GenContext) (project : Project)
    (rawPath : String) (method : String) (op : Operation) : Project :=
  let fileName := serviceNameOf op
  let filePath := filePathOf ctx op
  let project := getOrCreateServiceFile project filePath
  let project := project.updateFile filePath
    (fun f => getOrCreateServiceClass f fileName)
  let potentialImportsToInclude := potentialImportsOf op
  let project :=
    if potentialImportsToInclude.isEmpty then project
    else project.updateFile filePath
      (fun f => includeOrCreateNamedImport f ctx.modelsPath potentialImportsToInclude)
  project.updateFile filePath
    (fun f => f.addMethodToClass fileName (methodOf rawPath method op))

/-- One `paths` entry: the raw path string and its verb → operation table,
in declaration order (JavaScript object keys preserve insertion order). -/
abbrev PathItem := List (String × Operation)

/-- The verbs of a path entry that are outside `knownOperations`. -/
def unknownOperationsOf (pathSpec : PathItem) : List String :=
  (pathSpec.map Prod.fst).filter (fun m => !knownOperations.contains m)

/-- The text of `new Error` thrown for a path with unknown verbs; a
JavaScript array interpolates as its elements joined by commas. -/
def errorMessage (rawPath : String) (unknown : List String) : String :=
  "Unknown operation(s) found for " ++ rawPath ++ ": " ++
    String.intercalate "," unknown

/-- The per-path step of `generateServices`: validate the declared verbs,
then process every declared operation in order. -/
def processPath (ctx : GenContext) (project : Project)
    (entry : String × PathItem) : Except String Project :=
  let rawPath := entry.1
  let pathSpec := entry.2
  let unknown := unknownOperationsOf pathSpec
  if unknown.isEmpty then
    Except.ok (pathSpec.foldl
      (fun pr mo => serviceFromPathSpecification ctx pr rawPath mo.1 mo.2)
      project)
  else
    Except.error (errorMessage rawPath unknown)

/-- `generateServices`: walk the path table in order; a thrown error aborts
the remainder of the pass. -/
def generateServices (ctx : GenContext) (project : Project)
    (paths : List (String × PathItem)) : Except String Project :=
  paths.foldlM (processPath ctx) project

/-- Look up the class named `cname` in the project's file at `fp`. -/
def Project.serviceClass (p : Project) (fp cname : String) : Option ClassDecl :=
  (p.getSourceFile fp).bind (fun f => f.getClass cname)

/-- The adapter call returned by a generated method: the first `ret`
statement of its body. -/
def retCallOf (m : MethodDecl) : Option AdapterCall :=
  (m.statements.filterMap (fun s =>
    match s with
    | Stmt.ret c => some c
    | _ => none)).head?

/-- The NameResolver substitution as claim C3's sentence reads it: the
fixed suffix `Controller` — and only a suffix — rewritten to the suffix
`Service`.  Stated from the spec's words, to be compared with the
first-occurrence substitution `dataFromOperationId` actually performs. -/
def suffixControllerToService (s : String) : String :=
  if ("Controller".data).isSuffixOf s.data then
    String.mk (s.data.take (s.data.length - "Controller".data.length)) ++ "Service"
  else s

/-- A small generation context used to evaluate the theorems on concrete
inputs. -/
def ctxS : GenContext :=
  { rootDir := "out", modelsPath := "models" }

/-- Concrete operation: `GET /users/\x7bid\x7d` with one required path
parameter and a named response schema. -/
def opGetUser : Operation :=
  { operationId := some "UserController_getUser"
    parameters := [{ name := "id", location := "path", schemaType := "string",
                     required := true }]
    requestBody := none
    response := some { schema := ⟨"User"⟩, typeName := some "User" } }

/-- Concrete operation resolving to the same service as `opGetUser`. -/
def opDeleteUser : Operation :=
  { operationId := some "UserController_deleteUser"
    parameters := []
    requestBody := none
    response := none }

/-- Concrete operation with a malformed (separator-free) identifier. -/
def opMalformed : Operation :=
  { operationId := some "Weird"
    parameters := []
    requestBody := none
    response := none }

/-- Concrete operation with no identifier at all. -/
def opNoId : Operation :=
  { operationId := none
    parameters := []
    requestBody := none
    response := none }

/-- Concrete operation with path, query and header parameters plus a
required body schema referencing an external type. -/
def opHeaderCase : Operation :=
  { operationId := some "PetController_find"
    parameters := [
      { name := "id", location := "path", schemaType := "string", required := true },
      { name := "limit", location := "query", schemaType := "number", required := false },
      { name := "token", location := "header", schemaType := "string", required := true }]
    requestBody := some { contentName := "payload", schema := ⟨"FindBody"⟩,
                          required := true, imports := some "FindBody" }
    response := some { schema := ⟨"Pet"⟩, typeName := some "Pet" } }

/-- The service file at the operation's path, as one `serviceFromPathSpecification`
step leaves it, expressed as a function of the file found there before the
step (`none` = the file did not exist yet). -/
def fileAfterStep (ctx : GenContext) (rawPath method : String) (op : Operation)
    (prior : Option SourceFileArt) : SourceFileArt :=
  let fn := serviceNameOf op
  let f1 := prior.getD (newServiceFile (filePathOf ctx op))
  let f2 := getOrCreateServiceClass f1 fn
  let f3 :=
    if (potentialImportsOf op).isEmpty then f2
    else includeOrCreateNamedImport f2 ctx.modelsPath (potentialImportsOf op)
  f3.addMethodToClass fn (methodOf rawPath method op)

instance {ε α : Type} [DecidableEq ε] [DecidableEq α] :
    DecidableEq (Except ε α) := fun x y =>
  match x, y with
  | Except.ok a, Except.ok b =>
      if h : a = b then isTrue (by rw [h])
      else isFalse (by intro hh; cases hh; exact h rfl)
  | Except.error a, Except.error b =>
      if h : a = b then isTrue (by rw [h])
      else isFalse (by intro hh; cases hh; exact h rfl)
  | Except.ok _, Except.error _ => isFalse (by intro hh; cases hh)
  | Except.error _, Except.ok _ => isFalse (by intro hh; cases hh)

/-! ### Helper lemmas about the registry operations -/

theorem find?_updateFirstFile (l : List SourceFileArt) (fp : String)
    (g : SourceFileArt → SourceFileArt)
    (hg : ∀ f, (g f).filePath = f.filePath) :
    (updateFirstFile l fp g).find? (fun f => f.filePath == fp) =
      (l.find? (fun f => f.filePath == fp)).map g := by
  induction l with
  | nil => simp [updateFirstFile]
  | cons f fs ih =>
      by_cases h : f.filePath = fp
      · simp [updateFirstFile, h, List.find?_cons, hg]
      · simp [updateFirstFile, h, List.find?_cons, hg, ih]

theorem find?_updateFirstClass (l : List ClassDecl) (n : String)
    (g : ClassDecl → ClassDecl)
    (hg : ∀ c, (g c).name = c.name) :
    (updateFirstClass l n g).find? (fun c => c.name == n) =
      (l.find? (fun c => c.name == n)).map g := by
  induction l with
  | nil => simp [updateFirstClass]
  | cons c cs ih =>
      by_cases h : c.name = n
      · simp [updateFirstClass, h, List.find?_cons, hg]
      · simp [updateFirstClass, h, List.find?_cons, hg, ih]

theorem getSourceFile_getOrCreateServiceFile (p : Project) (fp : String) :
    (getOrCreateServiceFile p fp).getSourceFile fp =
      some ((p.getSourceFile fp).getD (newServiceFile fp)) := by
  unfold getOrCreateServiceFile
  cases h : p.getSourceFile fp with
  | some f => simp [h]
  | none =>
      unfold Project.getSourceFile at h ⊢
      simp [List.find?_append, h, newServiceFile]

theorem getSourceFile_updateFile (p : Project) (fp : String)
    (g : SourceFileArt → SourceFileArt)
    (hg : ∀ f, (g f).filePath = f.filePath) :
    (p.updateFile fp g).getSourceFile fp = (p.getSourceFile fp).map g :=
  find?_updateFirstFile p.files fp g hg

theorem filePath_getOrCreateServiceClass (f : SourceFileArt) (n : String) :
    (getOrCreateServiceClass f n).filePath = f.filePath := by
  unfold getOrCreateServiceClass
  cases h : f.getClass n <;> simp [h]

theorem filePath_includeOrCreateNamedImport (f : SourceFileArt) (t : String)
    (ns : List String) :
    (includeOrCreateNamedImport f t ns).filePath = f.filePath := rfl

theorem filePath_addMethodToClass (f : SourceFileArt) (n : String)
    (m : MethodDecl) :
    (f.addMethodToClass n m).filePath = f.filePath := rfl

theorem getClass_getOrCreateServiceClass (f : SourceFileArt) (n : String) :
    (getOrCreateServiceClass f n).getClass n =
      some ((f.getClass n).getD (newServiceClass n)) := by
  unfold getOrCreateServiceClass
  cases h : f.getClass n with
  | some c => simp [h]
  | none =>
      unfold SourceFileArt.getClass at h ⊢
      simp [List.find?_append, h, newServiceClass]

theorem getClass_includeOrCreateNamedImport (f : SourceFileArt) (t : String)
    (ns : List String) (n : String) :
    (includeOrCreateNamedImport f t ns).getClass n = f.getClass n := rfl

theorem getClass_addMethodToClass (f : SourceFileArt) (n : String)
    (m : MethodDecl) :
    (f.addMethodToClass n m).getClass n =
      (f.getClass n).map (fun c => { c with methods := c.methods ++ [m] }) := by
  unfold SourceFileArt.addMethodToClass SourceFileArt.getClass
  exact find?_updateFirstClass f.classes n _ (fun _ => rfl)

theorem getClass_newServiceFile (fp n : String) :
    (newServiceFile fp).getClass n = none := rfl

theorem getSourceFile_step (ctx : GenContext) (p : Project)
    (rawPath method : String) (op : Operation) :
    (serviceFromPathSpecification ctx p rawPath method op).getSourceFile
        (filePathOf ctx op) =
      some (fileAfterStep ctx rawPath method op
        (p.getSourceFile (filePathOf ctx op))) := by
  unfold serviceFromPathSpecification fileAfterStep
  dsimp only
  by_cases himp : (potentialImportsOf op).isEmpty
  · simp only [himp, eq_self_iff_true, if_true]
    rw [getSourceFile_updateFile, getSourceFile_updateFile,
      getSourceFile_getOrCreateServiceFile]
    · rfl
    · exact fun f => filePath_getOrCreateServiceClass f _
    · exact fun f => filePath_addMethodToClass f _ _
  · simp only [himp, Bool.false_eq_true, if_false]
    rw [getSourceFile_updateFile, getSourceFile_updateFile,
      getSourceFile_updateFile, getSourceFile_getOrCreateServiceFile]
    · rfl
    · exact fun f => filePath_getOrCreateServiceClass f _
    · exact fun f => filePath_includeOrCreateNamedImport f _ _
    · exact fun f => filePath_addMethodToClass f _ _

theorem getClass_fileAfterStep (ctx : GenContext) (rawPath method : String)
    (op : Operation) (prior : Option SourceFileArt) :
    (fileAfterStep ctx rawPath method op prior).getClass (serviceNameOf op) =
      some (let c := (prior.bind
              (fun f => f.getClass (serviceNameOf op))).getD
              (newServiceClass (serviceNameOf op))
            { c with methods := c.methods ++ [methodOf rawPath method op] }) := by
  unfold fileAfterStep
  dsimp only
  rw [getClass_addMethodToClass]
  by_cases himp : (potentialImportsOf op).isEmpty
  · simp only [himp, eq_self_iff_true, if_true]
    rw [getClass_getOrCreateServiceClass]
    cases prior <;> rfl
  · simp only [himp, Bool.false_eq_true, if_false]
    rw [getClass_includeOrCreateNamedImport, getClass_getOrCreateServiceClass]
    cases prior <;> rfl

theorem serviceClass_step (ctx : GenContext) (p : Project)
    (rawPath method : String) (op : Operation) :
    (serviceFromPathSpecification ctx p rawPath method op).serviceClass
        (filePathOf ctx op) (serviceNameOf op) =
      some (let c := (p.serviceClass (filePathOf ctx op)
              (serviceNameOf op)).getD (newServiceClass (serviceNameOf op))
            { c with methods := c.methods ++ [methodOf rawPath method op] }) := by
  unfold Project.serviceClass
  rw [getSourceFile_step, Option.some_bind, getClass_fileAfterStep]

theorem serviceClass_name (p : Project) (fp cn : String) (c : ClassDecl)
    (h : p.serviceClass fp cn = some c) : c.name = cn := by
  unfold Project.serviceClass at h
  cases hf : p.getSourceFile fp with
  | none => rw [hf] at h; cases h
  | some f =>
      rw [hf, Option.some_bind] at h
      unfold SourceFileArt.getClass at h
      have hfind := List.find?_some h
      simpa using hfind

theorem map_name_updateFirstClass (l : List ClassDecl) (n : String)
    (g : ClassDecl → ClassDecl) (hg : ∀ c, (g c).name = c.name) :
    (updateFirstClass l n g).map ClassDecl.name = l.map ClassDecl.name := by
  induction l with
  | nil => rfl
  | cons c cs ih =>
      by_cases h : c.name = n <;> simp [updateFirstClass, h, hg, ih]

theorem classNames_addMethodToClass (f : SourceFileArt) (n : String)
    (m : MethodDecl) :
    (f.addMethodToClass n m).classes.map ClassDecl.name =
      f.classes.map ClassDecl.name := by
  unfold SourceFileArt.addMethodToClass
  exact map_name_updateFirstClass f.classes n _ (fun _ => rfl)

theorem classes_includeOrCreateNamedImport (f : SourceFileArt) (t : String)
    (ns : List String) :
    (includeOrCreateNamedImport f t ns).classes = f.classes := rfl

theorem classNames_getOrCreateServiceClass (f : SourceFileArt) (n : String) :
    (getOrCreateServiceClass f n).classes.map ClassDecl.name =
      if (f.getClass n).isSome then f.classes.map ClassDecl.name
      else f.classes.map ClassDecl.name ++ [n] := by
  unfold getOrCreateServiceClass
  cases h : f.getClass n <;> simp [h, newServiceClass]

theorem classNames_fileAfterStep (ctx : GenContext) (rawPath method : String)
    (op : Operation) (prior : Option SourceFileArt) :
    (fileAfterStep ctx rawPath method op prior).classes.map ClassDecl.name =
      (let f1 := prior.getD (newServiceFile (filePathOf ctx op))
       if (f1.getClass (serviceNameOf op)).isSome then
         f1.classes.map ClassDecl.name
       else f1.classes.map ClassDecl.name ++ [serviceNameOf op]) := by
  unfold fileAfterStep
  dsimp only
  rw [classNames_addMethodToClass]
  by_cases himp : (potentialImportsOf op).isEmpty
  · simp only [himp, eq_self_iff_true, if_true]
    rw [classNames_getOrCreateServiceClass]
  · simp only [himp, Bool.false_eq_true, if_false]
    rw [show ∀ (g : SourceFileArt), (includeOrCreateNamedImport g ctx.modelsPath
        (potentialImportsOf op)).classes = g.classes from fun _ => rfl]
    rw [classNames_getOrCreateServiceClass]

theorem importDecls_getOrCreateServiceClass (f : SourceFileArt) (n : String) :
    (getOrCreateServiceClass f n).importDecls = f.importDecls := by
  unfold getOrCreateServiceClass
  cases h : f.getClass n <;> rfl

theorem importDecls_addMethodToClass (f : SourceFileArt) (n : String)
    (m : MethodDecl) :
    (f.addMethodToClass n m).importDecls = f.importDecls := rfl

theorem unknownOperationsOf_eq_nil (pathSpec : PathItem) :
    unknownOperationsOf pathSpec = [] ↔
      ∀ m ∈ pathSpec.map Prod.fst, m ∈ knownOperations := by
  unfold unknownOperationsOf
  rw [List.filter_eq_nil_iff]
  constructor
  · intro h m hm
    have := h m hm
    simpa using this
  · intro h m hm
    simpa using h m hm

theorem generateServices_nil (ctx : GenContext) (p : Project) :
    generateServices ctx p [] = Except.ok p := rfl

theorem generateServices_cons (ctx : GenContext) (p : Project)
    (e : String × PathItem) (rest : List (String × PathItem)) :
    generateServices ctx p (e :: rest) =
      (processPath ctx p e).bind (fun p2 => generateServices ctx p2 rest) := by
  cases h : processPath ctx p e <;>
    simp [generateServices, List.foldlM_cons, h, Except.bind] <;> rfl

/-! ### Helper lemmas about import insertion -/

theorem mem_foldl_insertImport (t : String) (ns : List String)
    (imps : List ImportEntry) (x : ImportEntry) (hx : x ∈ imps) :
    x ∈ ns.foldl
      (fun imps n => if (t, n) ∈ imps then imps else imps ++ [(t, n)]) imps := by
  induction ns generalizing imps with
  | nil => exact hx
  | cons n rest ih =>
      rw [List.foldl_cons]
      by_cases h : (t, n) ∈ imps
      · simpa [h] using ih imps hx
      · simp only [h, if_false]
        exact ih _ (List.mem_append_left _ hx)

theorem mem_target_foldl_insertImport (t : String) (ns : List String)
    (imps : List ImportEntry) (n : String) (hn : n ∈ ns) :
    (t, n) ∈ ns.foldl
      (fun imps n => if (t, n) ∈ imps then imps else imps ++ [(t, n)]) imps := by
  induction ns generalizing imps with
  | nil => cases hn
  | cons m rest ih =>
      rw [List.foldl_cons]
      rcases List.mem_cons.mp hn with heq | hmem
      · subst heq
        by_cases h : (t, n) ∈ imps
        · rw [if_pos h]
          exact mem_foldl_insertImport t rest imps _ h
        · rw [if_neg h]
          exact mem_foldl_insertImport t rest _ _ (by simp)
      · exact ih _ hmem

theorem foldl_insertImport_no_new (t : String) (ns : List String)
    (imps : List ImportEntry) (h : ∀ n ∈ ns, (t, n) ∈ imps) :
    ns.foldl
      (fun imps n => if (t, n) ∈ imps then imps else imps ++ [(t, n)]) imps =
      imps := by
  induction ns with
  | nil => rfl
  | cons n rest ih =>
      rw [List.foldl_cons, if_pos (h n (List.mem_cons_self n rest))]
      exact ih (fun m hm => h m (List.mem_cons_of_mem n hm))

theorem count_foldl_insertImport (t : String) (ns : List String) (n : String) :
    ∀ imps : List ImportEntry,
      (ns.foldl
        (fun imps n => if (t, n) ∈ imps then imps else imps ++ [(t, n)])
        imps).count (t, n) =
      if n ∈ ns then max (imps.count (t, n)) 1 else imps.count (t, n) := by
  induction ns with
  | nil => intro imps; simp
  | cons m rest ih =>
      intro imps
      rw [List.foldl_cons]
      by_cases hmn : m = n
      · subst hmn
        by_cases h : (t, m) ∈ imps
        · have hpos : 1 ≤ imps.count (t, m) := List.count_pos_iff.mpr h
          rw [if_pos h, ih imps]
          by_cases hr : m ∈ rest
          · simp [hr]
          · rw [if_neg hr, if_pos (List.mem_cons_self m rest)]
            exact (Nat.max_eq_left hpos).symm
        · have hzero : imps.count (t, m) = 0 := List.count_eq_zero.mpr h
          rw [if_neg h, ih (imps ++ [(t, m)])]
          have hone : (imps ++ [(t, m)]).count (t, m) = 1 := by
            rw [List.count_append, hzero]
            simp
          by_cases hr : m ∈ rest
          · rw [if_pos hr, if_pos (List.mem_cons_self m rest), hone, hzero]
            decide
          · rw [if_neg hr, if_pos (List.mem_cons_self m rest), hone, hzero]
            decide
      · have hpair : ((t, n) : ImportEntry) ≠ (t, m) :=
          fun hcontra => hmn (congrArg Prod.snd hcontra).symm
        have hmem : (n ∈ m :: rest) ↔ (n ∈ rest) := by
          rw [List.mem_cons]
          constructor
          · rintro (rfl | hx)
            · exact absurd rfl hmn
            · exact hx
          · exact Or.inr
        by_cases h : (t, m) ∈ imps
        · rw [if_pos h, ih imps]
          simp only [hmem]
        · rw [if_neg h, ih (imps ++ [(t, m)])]
          have hc : (imps ++ [(t, m)]).count (t, n) = imps.count (t, n) := by
            rw [List.count_append]
            simp [List.count_cons, hpair]
          rw [hc]
          simp only [hmem]

/-! ### Helper lemmas about generated text -/

theorem propsAccess_injective (a b : String)
    (h : propsAccess a = propsAccess b) : a = b := by
  unfold propsAccess at h
  have hdata := congrArg String.data h
  rw [String.data_append, String.data_append, String.data_append,
    String.data_append] at hdata
  have h2 := List.append_cancel_right hdata
  have h3 := List.append_cancel_left h2
  cases a; cases b
  simp only [] at h3
  rw [h3]

/-! ### Shape of one generated method -/

theorem methodOf_statements (rawPath method : String) (op : Operation) :
    (methodOf rawPath method op).statements =
      [Stmt.destruct false "this.configuration" ["baseUrl", "adapter"]] ++
      (if (groupByLocation "path" op.parameters).isEmpty then []
       else [Stmt.destruct true "props"
         ((groupByLocation "path" op.parameters).map Param.name)]) ++
      [Stmt.blank,
       Stmt.ret
         { callName := "adapter"
           parametricType := parametricTypeOf op
           url := printStringTemplate
             ("$\x7bbaseUrl\x7d" ++ pathArgsToTemplate rawPath)
           method := quoted (jsToUpperCase method)
           queryParams :=
             if (groupByLocation "query" op.parameters).isEmpty then none
             else some ((groupByLocation "query" op.parameters).map
               (fun p => (p.name, propsAccess p.name)))
           bodyArgs := (extractContentSchema "bodyArgs" op).map
             (fun b => propsAccess b.contentName) }] := by
  unfold methodOf rejectFalsy
  by_cases hp : (groupByLocation "path" op.parameters).isEmpty <;> simp [hp]

theorem methodOf_parameters (rawPath method : String) (op : Operation) :
    (methodOf rawPath method op).parameters =
      if (extractContentSchema "bodyArgs" op).isSome || !op.parameters.isEmpty
      then [("props", TypeExpr.objectType (propsFieldsOf op))]
      else [] := by
  unfold methodOf rejectFalsy
  by_cases h : (extractContentSchema "bodyArgs" op).isSome ||
      !op.parameters.isEmpty <;> simp [h]

theorem propsFieldsOf_eq (op : Operation) :
    propsFieldsOf op =
      (match op.requestBody with
       | some b => [{ name := b.contentName, type := FieldType.rendered b.schema,
                      hasQuestionToken := !b.required }]
       | none => []) ++
      op.parameters.map (fun p =>
        { name := p.name, type := FieldType.sanitized p.schemaType,
          hasQuestionToken := !p.required }) := by
  unfold propsFieldsOf extractContentSchema rejectFalsy
  cases op.requestBody <;> simp [List.filterMap_cons] <;>
    · induction op.parameters with
      | nil => rfl
      | cons q qs ih => simp [List.filterMap_cons, ih]

/-! ### Claim theorems -/

/-- C2: the body of every generated method is, in fixed order: the
destructuring of `this.configuration` into `baseUrl` and `adapter`; iff at
least one path-location parameter exists, a destructuring of `props`
extracting exactly the path-parameter names; a blank line; and the return
of the `adapter` call parameterized by the type rendered from the response
schema (`void` when absent), whose argument object carries the `baseUrl`
plus substituted path template as `url`, the upper-cased verb literal as
`method`, the query object as `queryParams` and the body access or
`undefined` as `bodyArgs`. -/
theorem generatedMethodBodyShape (rawPath method : String) (op : Operation) :
    (methodOf rawPath method op).statements =
      [Stmt.destruct false "this.configuration" ["baseUrl", "adapter"]] ++
      (if (op.parameters.filter (fun p => p.location == "path")).isEmpty then []
       else [Stmt.destruct true "props"
         ((op.parameters.filter (fun p => p.location == "path")).map Param.name)]) ++
      [Stmt.blank,
       Stmt.ret
         { callName := "adapter"
           parametricType :=
             match op.response with
             | some r => TypeExpr.rendered r.schema
             | none => TypeExpr.lit "void"
           url := printStringTemplate
             ("$\x7bbaseUrl\x7d" ++ pathArgsToTemplate rawPath)
           method := quoted (jsToUpperCase method)
           queryParams :=
             if (op.parameters.filter (fun p => p.location == "query")).isEmpty
             then none
             else some ((op.parameters.filter (fun p => p.location == "query")).map
               (fun p => (p.name, propsAccess p.name)))
           bodyArgs := op.requestBody.map (fun b => propsAccess b.contentName) }] := by
  rw [methodOf_statements]
  rfl

/-- C5: a generated method has no parameter iff the operation declares no
request-body schema and no parameters; otherwise it has exactly the one
parameter `props` whose inline object type lists the body content field
(optional iff the body is not required) followed by one field per declared
parameter in declaration order (optional iff not required). -/
theorem generatedMethodParameterList (rawPath method : String) (op : Operation) :
    (methodOf rawPath method op).parameters =
      if op.requestBody = none ∧ op.parameters = [] then []
      else [("props", TypeExpr.objectType (
        (match op.requestBody with
         | some b => [{ name := b.contentName, type := FieldType.rendered b.schema,
                        hasQuestionToken := !b.required }]
         | none => []) ++
        op.parameters.map (fun p =>
          { name := p.name, type := FieldType.sanitized p.schemaType,
            hasQuestionToken := !p.required })))] := by
  rw [methodOf_parameters, propsFieldsOf_eq]
  rcases hb : op.requestBody with _ | b <;>
    rcases hps : op.parameters with _ | ⟨q, qs⟩ <;>
    simp [extractContentSchema, hb, hps]

/-- C6: the `queryParams` field of the request descriptor is `undefined`
iff no declared parameter has location `query`; otherwise it maps each
query-location parameter's name to `props['name']`, in declaration
order. -/
theorem generatedQueryParams (rawPath method : String) (op : Operation) :
    (retCallOf (methodOf rawPath method op)).map AdapterCall.queryParams =
      some (if op.parameters.filter (fun p => p.location == "query") = []
        then none
        else some ((op.parameters.filter (fun p => p.location == "query")).map
          (fun p => (p.name, propsAccess p.name)))) := by
  unfold retCallOf
  rw [methodOf_statements]
  by_cases hq : op.parameters.filter (fun p => p.location == "query") = []
  · rw [if_pos hq,
      if_pos (show (groupByLocation "query" op.parameters).isEmpty = true from
        List.isEmpty_iff.mpr hq)]
    by_cases hp : (groupByLocation "path" op.parameters).isEmpty
    · rw [if_pos hp]; rfl
    · rw [if_neg hp]; rfl
  · rw [if_neg hq,
      if_neg (show ¬(groupByLocation "query" op.parameters).isEmpty = true from
        fun hcon => hq (List.isEmpty_iff.mp hcon))]
    by_cases hp : (groupByLocation "path" op.parameters).isEmpty
    · rw [if_pos hp]; rfl
    · rw [if_neg hp]; rfl

/-- C3, counterexample: for `A = "FooControllerBar"` the resolver does not
apply a suffix rewrite (there is no `Controller` suffix to rewrite, so the
claim predicts `A` unchanged): it replaces the first occurrence anywhere,
yielding `FooServiceBar`. -/
theorem nameResolverSuffixCounterexample :
    dataFromOperationId (some "FooControllerBar_m") ≠
      (suffixControllerToService "FooControllerBar", "m") := by decide

/-- C3 as amended: for every identifier splitting on `_` into exactly two
segments `A` and `B`, the resolver yields service name = `A` with the first
occurrence of `Controller` (anywhere in `A`, not only as a suffix) replaced
by `Service`, and method name = `B` verbatim. -/
theorem nameResolverTwoSegments (id a b : String)
    (h : jsSplit '_' id = [a, b]) :
    dataFromOperationId (some id) =
      (replaceFirst a "Controller" "Service", b) := by
  unfold dataFromOperationId
  dsimp only
  rw [h]

theorem nameResolverTwoSegmentsWitness :
    jsSplit '_' "UserController_getUser" = ["UserController", "getUser"] ∧
    dataFromOperationId (some "UserController_getUser") =
      ("UserService", "getUser") :=
  ⟨by decide,
   (nameResolverTwoSegments "UserController_getUser" "UserController"
      "getUser" (by decide)).trans (by decide)⟩

/-- C8: an operation identifier that does not split on `_` into exactly two
segments (zero, one, or three or more) resolves, without raising, to the
fixed default pair `('Service', 'unknownName')`, and generation still
produces a class named `Service` carrying a method named `unknownName` for
the operation. -/
theorem malformedIdFallback (ctx : GenContext) (project : Project)
    (id rawPath method : String) (op : Operation)
    (hid : op.operationId = some id)
    (hsplit : (jsSplit '_' id).length ≠ 2) :
    dataFromOperationId op.operationId = ("Service", "unknownName") ∧
    ((serviceFromPathSpecification ctx project rawPath method op).serviceClass
        (ctx.rootDir ++ "/services/" ++ "Service" ++ ".ts") "Service").map
      (fun c => (c.name, c.methods.map MethodDecl.name)) =
      some ("Service",
        ((project.serviceClass (ctx.rootDir ++ "/services/" ++ "Service" ++ ".ts")
            "Service").getD (newServiceClass "Service")).methods.map
          MethodDecl.name ++ ["unknownName"]) := by
  have h1 : dataFromOperationId op.operationId = ("Service", "unknownName") := by
    rw [hid]
    unfold dataFromOperationId
    dsimp only
    rcases hl : jsSplit '_' id with _ | ⟨x, _ | ⟨y, _ | ⟨z, zs⟩⟩⟩
    · rfl
    · rfl
    · exact absurd (by rw [hl]; rfl) hsplit
    · rfl
  refine ⟨h1, ?_⟩
  have hfn : serviceNameOf op = "Service" := by
    unfold serviceNameOf
    rw [h1]
  have hmn : (methodOf rawPath method op).name = "unknownName" := by
    show methodNameOf op = "unknownName"
    unfold methodNameOf
    rw [h1]
  have hfp : filePathOf ctx op =
      ctx.rootDir ++ "/services/" ++ "Service" ++ ".ts" := by
    unfold filePathOf
    rw [hfn]
  have hstep := serviceClass_step ctx project rawPath method op
  rw [hfp, hfn] at hstep
  cases hc : project.serviceClass
      (ctx.rootDir ++ "/services/" ++ "Service" ++ ".ts") "Service" with
  | none =>
      rw [hc] at hstep
      rw [hstep]
      simp [newServiceClass, hmn]
  | some cc =>
      have hname := serviceClass_name _ _ _ _ hc
      rw [hc] at hstep
      rw [hstep]
      simp [hmn, hname]

theorem malformedIdFallbackWitness :
    opMalformed.operationId = some "Weird" ∧
    (jsSplit '_' "Weird").length ≠ 2 ∧
    ((serviceFromPathSpecification ctxS ⟨[]⟩ "/weird" "get"
        opMalformed).serviceClass
        (ctxS.rootDir ++ "/services/" ++ "Service" ++ ".ts") "Service").map
      (fun c => (c.name, c.methods.map MethodDecl.name)) =
      some ("Service", ["unknownName"]) :=
  ⟨by decide, by decide,
   ((malformedIdFallback ctxS ⟨[]⟩ "Weird" "/weird" "get" opMalformed
      (by decide) (by decide)).2).trans (by decide)⟩

/-- C10: an operation whose `operationId` is entirely absent is handled
totally: the resolver returns the default pair `('Service', 'unknownName')`
without raising, and the operation is still generated as a method named
`unknownName` on the default `Service` class. -/
theorem missingIdFallback (ctx : GenContext) (project : Project)
    (rawPath method : String) (op : Operation)
    (hid : op.operationId = none) :
    dataFromOperationId op.operationId = ("Service", "unknownName") ∧
    ((serviceFromPathSpecification ctx project rawPath method op).serviceClass
        (ctx.rootDir ++ "/services/" ++ "Service" ++ ".ts") "Service").map
      (fun c => (c.name, c.methods.map MethodDecl.name)) =
      some ("Service",
        ((project.serviceClass (ctx.rootDir ++ "/services/" ++ "Service" ++ ".ts")
            "Service").getD (newServiceClass "Service")).methods.map
          MethodDecl.name ++ ["unknownName"]) := by
  have h1 : dataFromOperationId op.operationId = ("Service", "unknownName") := by
    rw [hid]
    rfl
  refine ⟨h1, ?_⟩
  have hfn : serviceNameOf op = "Service" := by
    unfold serviceNameOf
    rw [h1]
  have hmn : (methodOf rawPath method op).name = "unknownName" := by
    show methodNameOf op = "unknownName"
    unfold methodNameOf
    rw [h1]
  have hfp : filePathOf ctx op =
      ctx.rootDir ++ "/services/" ++ "Service" ++ ".ts" := by
    unfold filePathOf
    rw [hfn]
  have hstep := serviceClass_step ctx project rawPath method op
  rw [hfp, hfn] at hstep
  cases hc : project.serviceClass
      (ctx.rootDir ++ "/services/" ++ "Service" ++ ".ts") "Service" with
  | none =>
      rw [hc] at hstep
      rw [hstep]
      simp [newServiceClass, hmn]
  | some cc =>
      have hname := serviceClass_name _ _ _ _ hc
      rw [hc] at hstep
      rw [hstep]
      simp [hmn, hname]

theorem missingIdFallbackWitness :
    opNoId.operationId = none ∧
    ((serviceFromPathSpecification ctxS ⟨[]⟩ "/anon" "post" opNoId).serviceClass
        (ctxS.rootDir ++ "/services/" ++ "Service" ++ ".ts") "Service").map
      (fun c => (c.name, c.methods.map MethodDecl.name)) =
      some ("Service", ["unknownName"]) :=
  ⟨rfl,
   ((missingIdFallback ctxS ⟨[]⟩ "/anon" "post" opNoId rfl).2).trans (by decide)⟩

/-- C4: two operations (of one generation pass) resolving to the same
service name land on the same single class artifact: after processing both,
the class holds the previous methods followed by both new methods in
encounter order, with no deduplication or overwrite; and on a fresh module
the repeated get-or-create leaves exactly one class, never a copy. -/
theorem sameServiceSingleClass (ctx : GenContext) (project : Project)
    (rp1 m1 : String) (op1 : Operation) (rp2 m2 : String) (op2 : Operation)
    (h : serviceNameOf op1 = serviceNameOf op2) :
    ((serviceFromPathSpecification ctx
        (serviceFromPathSpecification ctx project rp1 m1 op1)
        rp2 m2 op2).serviceClass
        (filePathOf ctx op1) (serviceNameOf op1) =
      some (let c := (project.serviceClass (filePathOf ctx op1)
              (serviceNameOf op1)).getD (newServiceClass (serviceNameOf op1))
            { c with methods := c.methods ++
                [methodOf rp1 m1 op1, methodOf rp2 m2 op2] })) ∧
    (project.getSourceFile (filePathOf ctx op1) = none →
      ((serviceFromPathSpecification ctx
          (serviceFromPathSpecification ctx project rp1 m1 op1)
          rp2 m2 op2).getSourceFile
          (filePathOf ctx op1)).map (fun f => f.classes.map ClassDecl.name) =
        some [serviceNameOf op1]) := by
  have hfp : filePathOf ctx op2 = filePathOf ctx op1 := by
    unfold filePathOf
    rw [h]
  constructor
  · have h1 := serviceClass_step ctx project rp1 m1 op1
    have h2 := serviceClass_step ctx
      (serviceFromPathSpecification ctx project rp1 m1 op1) rp2 m2 op2
    rw [hfp, ← h, h1] at h2
    rw [h2]
    dsimp only
    simp [List.append_assoc]
  · intro hfresh
    have hn1 : (fileAfterStep ctx rp1 m1 op1 none).classes.map ClassDecl.name =
        [serviceNameOf op1] := by
      rw [classNames_fileAfterStep]
      rfl
    have g1 := getSourceFile_step ctx project rp1 m1 op1
    rw [hfresh] at g1
    have g2 := getSourceFile_step ctx
      (serviceFromPathSpecification ctx project rp1 m1 op1) rp2 m2 op2
    rw [hfp, g1] at g2
    rw [g2]
    simp only [Option.map_some']
    rw [classNames_fileAfterStep]
    dsimp only [Option.getD_some]
    rw [← h, getClass_fileAfterStep]
    simp [hn1]

theorem sameServiceSingleClassWitness :
    serviceNameOf opGetUser = serviceNameOf opDeleteUser ∧
    ((serviceFromPathSpecification ctxS
        (serviceFromPathSpecification ctxS ⟨[]⟩ "/users/\x7bid\x7d" "get" opGetUser)
        "/users" "delete" opDeleteUser).serviceClass
        (filePathOf ctxS opGetUser) (serviceNameOf opGetUser) =
      some (let c := ((⟨[]⟩ : Project).serviceClass (filePathOf ctxS opGetUser)
              (serviceNameOf opGetUser)).getD
              (newServiceClass (serviceNameOf opGetUser))
            { c with methods := c.methods ++
                [methodOf "/users/\x7bid\x7d" "get" opGetUser,
                 methodOf "/users" "delete" opDeleteUser] })) ∧
    (((serviceFromPathSpecification ctxS
        (serviceFromPathSpecification ctxS ⟨[]⟩ "/users/\x7bid\x7d" "get" opGetUser)
        "/users" "delete" opDeleteUser).getSourceFile
        (filePathOf ctxS opGetUser)).map (fun f => f.classes.map ClassDecl.name) =
      some [serviceNameOf opGetUser]) :=
  ⟨by decide,
   (sameServiceSingleClass ctxS ⟨[]⟩ "/users/\x7bid\x7d" "get" opGetUser
      "/users" "delete" opDeleteUser (by decide)).1,
   (sameServiceSingleClass ctxS ⟨[]⟩ "/users/\x7bid\x7d" "get" opGetUser
      "/users" "delete" opDeleteUser (by decide)).2 (by decide)⟩

/-- C1: a path entry declaring at least one verb outside
\x7bpost, get, patch, delete, put\x7d makes the generator raise the error
naming the offending path and the comma-joined full list of unrecognized
verbs, and no operation of that path is processed; a path entry whose verbs
all belong to the known set raises no such error and every declared
operation is processed; a path table all of whose entries are valid is
processed completely by `generateServices`. -/
theorem unknownVerbValidation (ctx : GenContext) (project : Project)
    (rawPath : String) (pathSpec : PathItem) :
    ((∃ m ∈ pathSpec.map Prod.fst, m ∉ knownOperations) →
      processPath ctx project (rawPath, pathSpec) =
        Except.error (errorMessage rawPath (unknownOperationsOf pathSpec))) ∧
    ((∀ m ∈ pathSpec.map Prod.fst, m ∈ knownOperations) →
      processPath ctx project (rawPath, pathSpec) =
        Except.ok (pathSpec.foldl
          (fun pr mo => serviceFromPathSpecification ctx pr rawPath mo.1 mo.2)
          project)) ∧
    (∀ paths : List (String × PathItem),
      (∀ e ∈ paths, ∀ m ∈ e.2.map Prod.fst, m ∈ knownOperations) →
      generateServices ctx project paths =
        Except.ok (paths.foldl
          (fun pr e => e.2.foldl
            (fun pr2 mo => serviceFromPathSpecification ctx pr2 e.1 mo.1 mo.2)
            pr)
          project)) := by
  have hreduce : ∀ (pr : Project) (rp : String) (ps : PathItem),
      (∀ m ∈ ps.map Prod.fst, m ∈ knownOperations) →
      processPath ctx pr (rp, ps) =
        Except.ok (ps.foldl
          (fun pr2 mo => serviceFromPathSpecification ctx pr2 rp mo.1 mo.2)
          pr) := by
    intro pr rp ps hall
    have hnil : unknownOperationsOf ps = [] :=
      (unknownOperationsOf_eq_nil ps).mpr hall
    unfold processPath
    dsimp only
    rw [hnil]
    rfl
  refine ⟨?_, fun hall => hreduce project rawPath pathSpec hall, ?_⟩
  · rintro ⟨m, hm, hnot⟩
    have hne : unknownOperationsOf pathSpec ≠ [] := by
      intro hcon
      exact hnot ((unknownOperationsOf_eq_nil pathSpec).mp hcon m hm)
    unfold processPath
    dsimp only
    rw [if_neg (fun hcon => hne (List.isEmpty_iff.mp hcon))]
  · intro paths
    induction paths generalizing project with
    | nil => intro; rfl
    | cons e rest ih =>
        intro hall
        rw [generateServices_cons,
          hreduce project e.1 e.2 (hall e (List.mem_cons_self e rest))]
        rw [List.foldl_cons]
        exact ih _ (fun e2 he2 => hall e2 (List.mem_cons_of_mem e he2))

theorem unknownVerbValidationWitness :
    processPath ctxS ⟨[]⟩
        ("/pets", [("get", opGetUser), ("trace", opGetUser), ("link", opGetUser)]) =
      Except.error "Unknown operation(s) found for /pets: trace,link" ∧
    processPath ctxS ⟨[]⟩ ("/pets", [("get", opGetUser)]) =
      Except.ok (serviceFromPathSpecification ctxS ⟨[]⟩ "/pets" "get" opGetUser) ∧
    generateServices ctxS ⟨[]⟩ [("/pets", [("get", opGetUser)])] =
      Except.ok (serviceFromPathSpecification ctxS ⟨[]⟩ "/pets" "get" opGetUser) :=
  ⟨((unknownVerbValidation ctxS ⟨[]⟩ "/pets"
      [("get", opGetUser), ("trace", opGetUser), ("link", opGetUser)]).1
      (by decide)).trans (by decide),
   ((unknownVerbValidation ctxS ⟨[]⟩ "/pets" [("get", opGetUser)]).2.1
      (by decide)).trans (by decide),
   ((unknownVerbValidation ctxS ⟨[]⟩ "/pets" [("get", opGetUser)]).2.2
      [("/pets", [("get", opGetUser)])] (by decide)).trans (by decide)⟩

/-- C7: import registration: `includeOrCreateNamedImport` is idempotent and
yields exactly one entry per (module, name) pair; at the file level it is
not invoked when no external type name is referenced (the imports of the
service file are then untouched), and when names are referenced each one
ends up imported from the type-definitions module. -/
theorem importRegistration (f : SourceFileArt) (target : String)
    (ns : List String) (n : String) (ctx : GenContext) (project : Project)
    (rawPath method : String) (op op2 : Operation) :
    (includeOrCreateNamedImport (includeOrCreateNamedImport f target ns)
        target ns = includeOrCreateNamedImport f target ns) ∧
    (n ∈ ns → f.importDecls.count (target, n) ≤ 1 →
      (includeOrCreateNamedImport f target ns).importDecls.count (target, n) = 1) ∧
    (potentialImportsOf op = [] →
      ((serviceFromPathSpecification ctx project rawPath method op).getSourceFile
          (filePathOf ctx op)).map SourceFileArt.importDecls =
        some ((project.getSourceFile (filePathOf ctx op)).getD
          (newServiceFile (filePathOf ctx op))).importDecls) ∧
    (∀ m ∈ potentialImportsOf op2,
      ∃ fl, (serviceFromPathSpecification ctx project rawPath method
          op2).getSourceFile (filePathOf ctx op2) = some fl ∧
        (ctx.modelsPath, m) ∈ fl.importDecls) := by
  refine ⟨?_, ?_, ?_, ?_⟩
  · unfold includeOrCreateNamedImport
    dsimp only
    rw [foldl_insertImport_no_new target ns _
      (fun m hm => mem_target_foldl_insertImport target ns f.importDecls m hm)]
  · intro hn hle
    unfold includeOrCreateNamedImport
    dsimp only
    rw [count_foldl_insertImport target ns n f.importDecls, if_pos hn]
    exact Nat.max_eq_right hle
  · intro hempty
    rw [getSourceFile_step]
    simp only [Option.map_some']
    unfold fileAfterStep
    dsimp only
    rw [if_pos (show (potentialImportsOf op).isEmpty = true from
      List.isEmpty_iff.mpr hempty)]
    rw [importDecls_addMethodToClass, importDecls_getOrCreateServiceClass]
  · intro m hm
    refine ⟨fileAfterStep ctx rawPath method op2
      (project.getSourceFile (filePathOf ctx op2)),
      getSourceFile_step ctx project rawPath method op2, ?_⟩
    unfold fileAfterStep
    dsimp only
    have hne : ¬(potentialImportsOf op2).isEmpty = true := by
      intro hcon
      rw [List.isEmpty_iff.mp hcon] at hm
      cases hm
    rw [if_neg hne, importDecls_addMethodToClass]
    unfold includeOrCreateNamedImport
    dsimp only
    exact mem_target_foldl_insertImport ctx.modelsPath _ _ m hm

theorem importRegistrationWitness :
    (includeOrCreateNamedImport (includeOrCreateNamedImport
        (newServiceFile "out/services/A.ts") "models" ["User", "Pet"])
        "models" ["User", "Pet"] =
      includeOrCreateNamedImport (newServiceFile "out/services/A.ts")
        "models" ["User", "Pet"]) ∧
    ((includeOrCreateNamedImport (newServiceFile "out/services/A.ts")
        "models" ["User", "Pet"]).importDecls.count ("models", "User") = 1) ∧
    (((serviceFromPathSpecification ctxS ⟨[]⟩ "/x" "post"
          opDeleteUser).getSourceFile
        (filePathOf ctxS opDeleteUser)).map SourceFileArt.importDecls =
      some (((⟨[]⟩ : Project).getSourceFile (filePathOf ctxS opDeleteUser)).getD
        (newServiceFile (filePathOf ctxS opDeleteUser))).importDecls) ∧
    (∃ fl, (serviceFromPathSpecification ctxS ⟨[]⟩ "/x" "post"
        opHeaderCase).getSourceFile (filePathOf ctxS opHeaderCase) = some fl ∧
      (ctxS.modelsPath, "Pet") ∈ fl.importDecls) :=
  ⟨(importRegistration (newServiceFile "out/services/A.ts") "models"
      ["User", "Pet"] "User" ctxS ⟨[]⟩ "/x" "post" opDeleteUser opHeaderCase).1,
   (importRegistration (newServiceFile "out/services/A.ts") "models"
      ["User", "Pet"] "User" ctxS ⟨[]⟩ "/x" "post" opDeleteUser
      opHeaderCase).2.1 (by decide) (by decide),
   (importRegistration (newServiceFile "out/services/A.ts") "models"
      ["User", "Pet"] "User" ctxS ⟨[]⟩ "/x" "post" opDeleteUser
      opHeaderCase).2.2.1 (by decide),
   (importRegistration (newServiceFile "out/services/A.ts") "models"
      ["User", "Pet"] "User" ctxS ⟨[]⟩ "/x" "post" opDeleteUser
      opHeaderCase).2.2.2 "Pet" (by decide)⟩

/-- C9: a declared parameter whose transport location is neither `path` nor
`query` (for example `header`) contributes a field to the `props` parameter
type, but no statement of the generated method body references it: it is
not destructured from `props`, not an entry of `queryParams`, and not the
`bodyArgs` access (parameter names and the body content field name being
distinct, as OpenAPI requires). -/
theorem otherLocationParamsDropped (rawPath method : String) (op : Operation)
    (p : Param) (hp : p ∈ op.parameters)
    (hpath : p.location ≠ "path") (hquery : p.location ≠ "query")
    (hnodup : (op.parameters.map Param.name).Nodup)
    (hbody : ∀ b, op.requestBody = some b → b.contentName ≠ p.name) :
    ((methodOf rawPath method op).parameters =
        [("props", TypeExpr.objectType (propsFieldsOf op))] ∧
      p.name ∈ (propsFieldsOf op).map FieldSig.name) ∧
    (∀ s ∈ (methodOf rawPath method op).statements,
      (∀ ml ps, s = Stmt.destruct ml "props" ps → p.name ∉ ps) ∧
      (∀ c, s = Stmt.ret c →
        (∀ qs, c.queryParams = some qs → p.name ∉ qs.map Prod.fst) ∧
        c.bodyArgs ≠ some (propsAccess p.name))) := by
  have hinj := List.inj_on_of_nodup_map hnodup
  have hfalse : op.parameters.isEmpty = false := by
    cases hh : op.parameters
    · rw [hh] at hp
      cases hp
    · rfl
  have hparams : (methodOf rawPath method op).parameters =
      [("props", TypeExpr.objectType (propsFieldsOf op))] := by
    rw [methodOf_parameters]
    simp [hfalse]
  have hmem : p.name ∈ (propsFieldsOf op).map FieldSig.name := by
    rw [propsFieldsOf_eq, List.map_append]
    apply List.mem_append_right
    rw [List.map_map]
    exact List.mem_map.mpr ⟨p, hp, rfl⟩
  have hnotpath : p.name ∉ (groupByLocation "path" op.parameters).map Param.name := by
    intro hcon
    rcases List.mem_map.mp hcon with ⟨q, hq, hqname⟩
    unfold groupByLocation at hq
    rcases List.mem_filter.mp hq with ⟨hqmem, hqloc⟩
    have hqp : q = p := hinj hqmem hp hqname
    rw [hqp] at hqloc
    exact hpath (by simpa using hqloc)
  have hq2 : ∀ qs,
      (if (groupByLocation "query" op.parameters).isEmpty then none
       else some ((groupByLocation "query" op.parameters).map
         (fun q => (q.name, propsAccess q.name)))) = some qs →
      p.name ∉ qs.map Prod.fst := by
    intro qs hqs
    by_cases hqe : (groupByLocation "query" op.parameters).isEmpty
    · rw [if_pos hqe] at hqs
      cases hqs
    · rw [if_neg hqe] at hqs
      cases hqs
      intro hcon
      rw [List.map_map] at hcon
      rcases List.mem_map.mp hcon with ⟨q, hq, hqname⟩
      unfold groupByLocation at hq
      rcases List.mem_filter.mp hq with ⟨hqmem, hqloc⟩
      have hqp : q = p := hinj hqmem hp hqname
      rw [hqp] at hqloc
      exact hquery (by simpa using hqloc)
  have hb2 : ((extractContentSchema "bodyArgs" op).map
      (fun b => propsAccess b.contentName)) ≠ some (propsAccess p.name) := by
    intro hcon
    unfold extractContentSchema at hcon
    cases hb : op.requestBody with
    | none =>
        rw [hb] at hcon
        cases hcon
    | some b =>
        rw [hb, Option.map_some'] at hcon
        exact hbody b hb (propsAccess_injective _ _ (Option.some.inj hcon))
  refine ⟨⟨hparams, hmem⟩, ?_⟩
  intro s hs
  rw [methodOf_statements] at hs
  by_cases hpe : (groupByLocation "path" op.parameters).isEmpty
  · rw [if_pos hpe] at hs
    simp only [List.append_nil, List.mem_append, List.mem_cons,
      List.mem_singleton, List.not_mem_nil, or_false] at hs
    rcases hs with rfl | rfl | rfl
    · refine ⟨?_, ?_⟩
      · intro ml ps heq
        injection heq with h1 h2 h3
        exact absurd h2 (by decide)
      · intro c hcon
        exact Stmt.noConfusion hcon
    · refine ⟨?_, ?_⟩
      · intro ml ps heq
        exact Stmt.noConfusion heq
      · intro c hcon
        exact Stmt.noConfusion hcon
    · refine ⟨?_, ?_⟩
      · intro ml ps heq
        exact Stmt.noConfusion heq
      · intro c hcon
        refine ⟨?_, ?_⟩
        · intro qs hqs
          rw [← Stmt.ret.inj hcon] at hqs
          exact hq2 qs hqs
        · rw [← Stmt.ret.inj hcon]
          exact hb2
  · rw [if_neg hpe] at hs
    simp only [List.mem_append, List.mem_cons, List.mem_singleton,
      List.not_mem_nil, or_false] at hs
    rcases hs with (rfl | rfl) | rfl | rfl
    · refine ⟨?_, ?_⟩
      · intro ml ps heq
        injection heq with h1 h2 h3
        exact absurd h2 (by decide)
      · intro c hcon
        exact Stmt.noConfusion hcon
    · refine ⟨?_, ?_⟩
      · intro ml ps heq
        injection heq with h1 h2 h3
        rw [← h3]
        exact hnotpath
      · intro c hcon
        exact Stmt.noConfusion hcon
    · refine ⟨?_, ?_⟩
      · intro ml ps heq
        exact Stmt.noConfusion heq
      · intro c hcon
        exact Stmt.noConfusion hcon
    · refine ⟨?_, ?_⟩
      · intro ml ps heq
        exact Stmt.noConfusion heq
      · intro c hcon
        refine ⟨?_, ?_⟩
        · intro qs hqs
          rw [← Stmt.ret.inj hcon] at hqs
          exact hq2 qs hqs
        · rw [← Stmt.ret.inj hcon]
          exact hb2

theorem otherLocationParamsDroppedWitness :
    (({ name := "token", location := "header", schemaType := "string",
        required := true } : Param) ∈ opHeaderCase.parameters) ∧
    (((methodOf "/pets" "post" opHeaderCase).parameters =
        [("props", TypeExpr.objectType (propsFieldsOf opHeaderCase))] ∧
      "token" ∈ (propsFieldsOf opHeaderCase).map FieldSig.name) ∧
    (∀ s ∈ (methodOf "/pets" "post" opHeaderCase).statements,
      (∀ ml ps, s = Stmt.destruct ml "props" ps → "token" ∉ ps) ∧
      (∀ c, s = Stmt.ret c →
        (∀ qs, c.queryParams = some qs → "token" ∉ qs.map Prod.fst) ∧
        c.bodyArgs ≠ some (propsAccess "token")))) :=
  ⟨by decide,
   otherLocationParamsDropped "/pets" "post" opHeaderCase
     { name := "token", location := "header", schemaType := "string",
       required := true }
     (by decide) (by decide) (by decide) (by decide)
     (by
       intro b hb
       injection hb with h
       rw [← h]
       decide)⟩

end SvcGen
